import Mathlib

/-!
Verification of the `stem` link-layer cell codec specification and of
`stem/directory.py`.

The cell codec (`stem/client/cell.py`) is exercised by the repository's unit
tests but its module source is not part of the shown material, so the codec is
modelled from the specification (sections 3, 4.2-4.5, 6 and 7): byte strings
become `List Nat` (each entry a byte value), all multi-byte integers are
big-endian, and every fallible operation returns `Except CellError`.

`stem/directory.py` is present and is embedded directly.
-/

/-! ## Byte-string primitives -/

/-- Big-endian encoding of `n` into exactly `w` bytes (truncating modulo
`256 ^ w`, mirroring a fixed-width struct pack). -/
def toBytesBE : Nat → Nat → List Nat
  | 0, _ => []
  | w + 1, n => toBytesBE w (n / 256) ++ [n % 256]

/-- Big-endian value of a byte string. -/
def fromBytesBE (bs : List Nat) : Nat :=
  bs.foldl (fun acc b => acc * 256 + b) 0

theorem length_toBytesBE (w n : Nat) : (toBytesBE w n).length = w := by
  induction w generalizing n with
  | zero => rfl
  | succ w ih => simp [toBytesBE, ih]

theorem fromBytesBE_concat (l : List Nat) (b : Nat) :
    fromBytesBE (l ++ [b]) = 256 * fromBytesBE l + b := by
  simp [fromBytesBE, List.foldl_append, Nat.mul_comm]

theorem fromBytesBE_toBytesBE (w n : Nat) :
    fromBytesBE (toBytesBE w n) = n % 256 ^ w := by
  induction w generalizing n with
  | zero => simp [toBytesBE, fromBytesBE, Nat.mod_one]
  | succ w ih =>
    rw [toBytesBE, fromBytesBE_concat, ih]
    rw [Nat.pow_succ, Nat.mul_comm (256 ^ w) 256, Nat.mod_mul]
    ring

theorem fromBytesBE_toBytesBE_of_lt (w n : Nat) (h : n < 256 ^ w) :
    fromBytesBE (toBytesBE w n) = n := by
  rw [fromBytesBE_toBytesBE, Nat.mod_eq_of_lt h]

/-- Take exactly the first list from an appended pair. -/
theorem take_len_append (l₁ l₂ : List Nat) (n : Nat) (h : n = l₁.length) :
    (l₁ ++ l₂).take n = l₁ := by
  subst h
  simp [List.take_left]

theorem drop_len_append (l₁ l₂ : List Nat) (n : Nat) (h : n = l₁.length) :
    (l₁ ++ l₂).drop n = l₂ := by
  subst h
  simp [List.drop_left]

/-! ## Errors of the cell codec

Modelled from the spec: section 7's error taxonomy, refined with the
expected/actual counts that sections 4.2-4.4 require each failure to report. -/

inductive CellError
  /-- A fixed-width numeric field pop found too few bytes
  (Truncated-header, or a trailing half of a 2-byte list entry). -/
  | truncatedField
  /-- Registry lookup found no entry (Unknown-type). -/
  | unknownType
  /-- Declared payload length exceeds the bytes available
  (Truncated-payload); carries the cell-type name and expected/actual counts. -/
  | truncatedPayload (name : String) (expected actual : Nat)
  /-- A certificate inside a CERTS payload declares more bytes than remain. -/
  | certTruncated (expected actual : Nat)
  /-- A CERTS payload holds fewer certificates than its declared count. -/
  | certCountShort (expected actual : Nat)
  /-- An AUTH_CHALLENGE payload is shorter than the 32+2 byte minimum. -/
  | authChallengeShort (expected actual : Nat)
  /-- An AUTH_CHALLENGE method count implies more bytes than remain. -/
  | authChallengeMethodsShort (expected actualBytes : Nat)
  /-- An address inside a NETINFO payload declares more bytes than remain. -/
  | addressTruncated (expected actual : Nat)
  /-- The looked-up type is registered but has no decoder (Authorize). -/
  | unsupported (name : String)
deriving DecidableEq, Repr

/-- A Truncated-* condition in the sense of section 7: either a fixed-width
field pop ran out of bytes or a declared payload length exceeded the buffer. -/
def CellError.isTruncation : CellError → Bool
  | .truncatedField => true
  | .truncatedPayload _ _ _ => true
  | _ => false

/-! ## Frame-layer primitives -/

/-- Modelled from the spec: `FIXED_PAYLOAD_LEN`, the protocol-wide fixed
payload size. The test vectors fix it at 509 bytes (a VPADDING cell holding a
`FIXED_PAYLOAD_LEN`-byte payload declares length `01 fd`). -/
def FIXED_PAYLOAD_LEN : Nat := 509

/-- Modelled from the spec: the link protocol version selects the width of
the circuit-identifier field, 2 bytes below version 4 and 4 bytes from 4 on. -/
def circIdLen (linkProtocol : Nat) : Nat :=
  if linkProtocol < 4 then 2 else 4

/-- Modelled from the spec: popping a `w`-byte big-endian unsigned field off
the front of a buffer, failing when fewer than `w` bytes are available. -/
def popNum (w : Nat) (content : List Nat) : Except CellError (Nat × List Nat) :=
  if content.length < w then .error .truncatedField
  else .ok (fromBytesBE (content.take w), content.drop w)

/-- Zero-pad a payload on the right up to `len` bytes. -/
def zeroPad (len : Nat) (l : List Nat) : List Nat :=
  l ++ List.replicate (len - l.length) 0

theorem popNum_append (w n : Nat) (t : List Nat) (h : n < 256 ^ w) :
    popNum w (toBytesBE w n ++ t) = .ok (n, t) := by
  have hlen : (toBytesBE w n).length = w := length_toBytesBE w n
  have hge : w ≤ (toBytesBE w n ++ t).length := by
    simp [hlen]
  rw [popNum, if_neg (by omega)]
  rw [take_len_append _ _ _ hlen.symm, drop_len_append _ _ _ hlen.symm,
    fromBytesBE_toBytesBE_of_lt w n h]

/-! ## Addresses and certificates (sections 3 and 4.3) -/

/-- Modelled from the spec: a typed network address carried inside NETINFO
cells; a type tag plus raw address bytes. -/
structure Address where
  addr_type : Nat
  value : List Nat
deriving DecidableEq, Repr

/-- An address whose fields fit their wire widths: a 1-byte type tag and a
1-byte length, with every value entry a byte. -/
def Address.wf (a : Address) : Prop :=
  a.addr_type < 256 ∧ a.value.length < 256 ∧ ∀ b ∈ a.value, b < 256

/-- Modelled from the spec: address encode is type tag (1 byte), length
(1 byte), then the raw bytes. -/
def Address.pack (a : Address) : List Nat :=
  [a.addr_type % 256, a.value.length % 256] ++ a.value

/-- Modelled from the spec: address decode reads the tag and declared length
and fails if fewer bytes remain than the declared length. -/
def Address.pop : List Nat → Except CellError (Address × List Nat)
  | t :: l :: rest =>
    if rest.length < l then .error (.addressTruncated l rest.length)
    else .ok (⟨t, rest.take l⟩, rest.drop l)
  | _ => .error .truncatedField

theorem address_pop_pack (a : Address) (rest : List Nat) (h : a.wf) :
    Address.pop (a.pack ++ rest) = .ok (a, rest) := by
  obtain ⟨ht, hl, _⟩ := h
  have h1 : a.addr_type % 256 = a.addr_type := Nat.mod_eq_of_lt ht
  have h2 : a.value.length % 256 = a.value.length := Nat.mod_eq_of_lt hl
  simp only [Address.pack, List.cons_append, List.nil_append, Address.pop, h2]
  rw [if_neg (by simp), take_len_append _ _ _ rfl, drop_len_append _ _ _ rfl, h1]

/-- Modelled from the spec: a typed certificate carried inside CERTS cells;
the numeric tag actually seen on the wire plus the raw certificate bytes (the
symbolic `CertType` is derived from the tag and carries no extra data). -/
structure Certificate where
  cert_type : Nat
  value : List Nat
deriving DecidableEq, Repr

/-- A certificate whose fields fit their wire widths: a 1-byte type tag and a
2-byte big-endian length, with every value entry a byte. -/
def Certificate.wf (c : Certificate) : Prop :=
  c.cert_type < 256 ∧ c.value.length < 65536 ∧ ∀ b ∈ c.value, b < 256

/-- Modelled from the spec: certificate encode is type tag (1 byte), length
(2 bytes big-endian), then the raw bytes. -/
def Certificate.pack (c : Certificate) : List Nat :=
  [c.cert_type % 256] ++ toBytesBE 2 c.value.length ++ c.value

/-- Modelled from the spec: certificate decode reads the tag and the 2-byte
declared length and fails, reporting expected versus remaining byte counts,
if the buffer is short. -/
def Certificate.pop : List Nat → Except CellError (Certificate × List Nat)
  | t :: s1 :: s2 :: rest =>
    let size := s1 * 256 + s2
    if rest.length < size then .error (.certTruncated size rest.length)
    else .ok (⟨t, rest.take size⟩, rest.drop size)
  | _ => .error .truncatedField

theorem certificate_pop_pack (c : Certificate) (rest : List Nat) (h : c.wf) :
    Certificate.pop (c.pack ++ rest) = .ok (c, rest) := by
  obtain ⟨ht, hl, _⟩ := h
  have h1 : c.cert_type % 256 = c.cert_type := Nat.mod_eq_of_lt ht
  have hsz : c.value.length / 256 % 256 * 256 + c.value.length % 256 =
      c.value.length := by
    have := Nat.div_add_mod c.value.length 256
    have : c.value.length / 256 < 256 := by omega
    omega
  simp only [Certificate.pack, toBytesBE, List.cons_append, List.nil_append,
    List.append_assoc, Certificate.pop, Nat.zero_div, Nat.zero_mod, hsz]
  rw [if_neg (by simp), take_len_append _ _ _ rfl, drop_len_append _ _ _ rfl, h1]

/-! ## Cell type registry (section 4.1) -/

/-- Registry entry: symbolic name, wire command value, fixed/variable flag. -/
structure CellDescriptor where
  NAME : String
  VALUE : Nat
  IS_FIXED_SIZE : Bool
deriving DecidableEq, Repr

/-- Modelled from the spec: the static registry holding every supported
variant plus the intentionally-unimplemented AUTHORIZE entry, with the
command values of section 6. -/
def cellRegistry : List CellDescriptor :=
  [⟨"PADDING", 0, true⟩,
   ⟨"VERSIONS", 7, false⟩,
   ⟨"NETINFO", 8, true⟩,
   ⟨"VPADDING", 128, false⟩,
   ⟨"CERTS", 129, false⟩,
   ⟨"AUTH_CHALLENGE", 130, false⟩,
   ⟨"AUTHORIZE", 132, false⟩]

/-- A dynamically-typed lookup key, mirroring the Python callers that may pass
a string, an integer, or `None` to either registry accessor. -/
inductive PyKey
  | str (s : String)
  | int (n : Int)
  | pyNone
deriving DecidableEq, Repr

/-- Python `==` between a lookup key and a registry entry's string name:
only a string key can match. -/
def keyEqName (k : PyKey) (name : String) : Bool :=
  match k with
  | .str s => s == name
  | _ => false

/-- Python `==` between a lookup key and a registry entry's numeric value:
only an integer key can match. -/
def keyEqValue (k : PyKey) (v : Nat) : Bool :=
  match k with
  | .int n => n == (v : Int)
  | _ => false

/-- Modelled from the spec: `by_name` returns the descriptor of a known cell
type and fails with the unknown-type condition for any other key, a key of
the wrong kind included. -/
def Cell.by_name (k : PyKey) : Except CellError CellDescriptor :=
  match cellRegistry.find? (fun d => keyEqName k d.NAME) with
  | some d => .ok d
  | none => .error .unknownType

/-- Modelled from the spec: `by_value` returns the descriptor of a known cell
command value and fails with the unknown-type condition for any other key,
a key of the wrong kind included. -/
def Cell.by_value (k : PyKey) : Except CellError CellDescriptor :=
  match cellRegistry.find? (fun d => keyEqValue k d.VALUE) with
  | some d => .ok d
  | none => .error .unknownType

/-! ## Cell variants (section 3) -/

/-- Modelled from the spec: the closed tagged-variant type of supported
cells. The NETINFO timestamp is kept as its 4-byte wire integer (seconds
since epoch). AUTHORIZE has no constructor: it is registered but carries no
decoded value, per section 4.4. -/
inductive Cell
  | padding (circ_id : Nat) (payload : List Nat)
  | versions (circ_id : Nat) (versions : List Nat)
  | netinfo (circ_id : Nat) (timestamp : Nat) (receiver : Address)
      (senders : List Address)
  | vpadding (circ_id : Nat) (payload : List Nat)
  | certs (circ_id : Nat) (certificates : List Certificate)
  | authChallenge (circ_id : Nat) (challenge : List Nat) (methods : List Nat)
deriving DecidableEq, Repr

/-- The circuit identifier of a cell. -/
def Cell.circId : Cell → Nat
  | .padding c _ => c
  | .versions c _ => c
  | .netinfo c _ _ _ => c
  | .vpadding c _ => c
  | .certs c _ => c
  | .authChallenge c _ _ => c

/-- The wire command byte of a cell (section 6). -/
def Cell.command : Cell → Nat
  | .padding _ _ => 0
  | .versions _ _ => 7
  | .netinfo _ _ _ _ => 8
  | .vpadding _ _ => 128
  | .certs _ _ => 129
  | .authChallenge _ _ _ => 130

/-- Whether the cell's variant is fixed-size (section 6: PADDING and
NETINFO are fixed, the rest of the supported variants are variable). -/
def Cell.isFixedSize : Cell → Bool
  | .padding _ _ => true
  | .netinfo _ _ _ _ => true
  | _ => false

/-- Modelled from the spec: the logical payload content of each variant
before frame-layer padding or length-prefixing (section 4.4). -/
def Cell.payloadBytes : Cell → List Nat
  | .padding _ p => p
  | .versions _ vs => vs.flatMap (toBytesBE 2)
  | .netinfo _ ts recv senders =>
      toBytesBE 4 ts ++ recv.pack ++ [senders.length % 256] ++
        senders.flatMap Address.pack
  | .vpadding _ p => p
  | .certs _ cs => [cs.length % 256] ++ cs.flatMap Certificate.pack
  | .authChallenge _ ch ms =>
      ch ++ toBytesBE 2 ms.length ++ ms.flatMap (toBytesBE 2)

/-- Well-formed field tuples: every numeric field fits its wire width, opaque
payloads are byte lists of a legal size, and fixed-size logical content fits
inside `FIXED_PAYLOAD_LEN`. -/
def Cell.wf : Cell → Prop
  | .padding _ p => p.length = FIXED_PAYLOAD_LEN ∧ ∀ b ∈ p, b < 256
  | .versions _ vs => (∀ v ∈ vs, v < 65536) ∧ 2 * vs.length < 65536
  | .netinfo _ ts recv senders =>
      ts < 4294967296 ∧ recv.wf ∧ senders.length < 256 ∧
      (∀ a ∈ senders, a.wf) ∧
      (Cell.netinfo 0 ts recv senders).payloadBytes.length ≤ FIXED_PAYLOAD_LEN
  | .vpadding _ p => p.length < 65536 ∧ ∀ b ∈ p, b < 256
  | .certs _ cs =>
      cs.length < 256 ∧ (∀ c ∈ cs, c.wf) ∧
      (Cell.certs 0 cs).payloadBytes.length < 65536
  | .authChallenge _ ch ms =>
      ch.length = 32 ∧ (∀ b ∈ ch, b < 256) ∧ (∀ m ∈ ms, m < 65536) ∧
      34 + 2 * ms.length < 65536

/-- Modelled from the spec: frame-layer encode (section 4.2). The circuit id
is written in the width implied by the link protocol version, then the 1-byte
command; fixed-size payloads are zero-padded to `FIXED_PAYLOAD_LEN`,
variable-size payloads get a 2-byte big-endian length field. -/
def Cell.pack (c : Cell) (linkProtocol : Nat) : List Nat :=
  let payload := c.payloadBytes
  toBytesBE (circIdLen linkProtocol) c.circId ++ [c.command] ++
    (if c.isFixedSize then zeroPad FIXED_PAYLOAD_LEN payload
     else toBytesBE 2 payload.length ++ payload)

/-! ## Per-variant payload decoders (section 4.4) -/

/-- Error-propagating sequencing of fallible decode steps (section 7:
every failure is reported synchronously to the immediate caller). -/
def andThen (x : Except CellError α) (f : α → Except CellError β) :
    Except CellError β :=
  match x with
  | .error e => .error e
  | .ok a => f a

@[simp] theorem andThen_ok (a : α) (f : α → Except CellError β) :
    andThen (.ok a) f = f a := rfl

@[simp] theorem andThen_error (e : CellError) (f : α → Except CellError β) :
    andThen (.error e) f = .error e := rfl

/-- Modelled from the spec: VERSIONS decode reads 2-byte groups until the
payload is exhausted and rejects a trailing partial entry. -/
def versionsUnpackPayload : List Nat → Except CellError (List Nat)
  | [] => .ok []
  | [_] => .error .truncatedField
  | a :: b :: rest =>
    andThen (versionsUnpackPayload rest) fun vs => .ok ((a * 256 + b) :: vs)

/-- Modelled from the spec: read a declared count of sender addresses,
returning them with the unread remainder of the payload. -/
def popAddresses : Nat → List Nat → Except CellError (List Address × List Nat)
  | 0, content => .ok ([], content)
  | n + 1, content =>
    andThen (Address.pop content) fun p =>
    andThen (popAddresses n p.2) fun q => .ok (p.1 :: q.1, q.2)

/-- Modelled from the spec: NETINFO decode reads the 4-byte timestamp, the
receiver address, a 1-byte sender count, then that many sender addresses;
remaining zero-padding bytes are not interpreted. -/
def netinfoUnpackPayload (content : List Nat) :
    Except CellError (Nat × Address × List Address) :=
  andThen (popNum 4 content) fun p1 =>
  andThen (Address.pop p1.2) fun p2 =>
  andThen (popNum 1 p2.2) fun p3 =>
  andThen (popAddresses p3.1 p3.2) fun p4 =>
  .ok (p1.1, p2.1, p4.1)

/-- Modelled from the spec: the CERTS decode loop reads one certificate per
remaining iteration; an empty buffer with iterations left fails reporting the
declared count versus the number of certificates actually contained. -/
def certsLoop (count : Nat) : Nat → List Nat → Except CellError (List Certificate)
  | 0, _ => .ok []
  | n + 1, content =>
    if content.isEmpty then .error (.certCountShort count (count - (n + 1)))
    else
      andThen (Certificate.pop content) fun p =>
      andThen (certsLoop count n p.2) fun cs => .ok (p.1 :: cs)

/-- Modelled from the spec: CERTS decode reads the 1-byte certificate count
then exactly that many certificates; trailing bytes beyond what the declared
count consumed are silently ignored. -/
def certsUnpackPayload : List Nat → Except CellError (List Certificate)
  | [] => .error .truncatedField
  | count :: rest => certsLoop count count rest

/-- The AUTH_CHALLENGE challenge size: a fixed 32-byte random challenge. -/
def AUTH_CHALLENGE_SIZE : Nat := 32

/-- Modelled from the spec: read a declared count of 2-byte method entries. -/
def popShorts : Nat → List Nat → Except CellError (List Nat × List Nat)
  | 0, content => .ok ([], content)
  | n + 1, content =>
    andThen (popNum 2 content) fun p =>
    andThen (popShorts n p.2) fun q => .ok (p.1 :: q.1, q.2)

/-- Modelled from the spec: AUTH_CHALLENGE decode fails if the payload is
shorter than 32+2 bytes (reporting expected versus actual total length) or if
the declared method count implies more bytes than remain (reporting the
expected method count versus the bytes available for it). -/
def authChallengeUnpackPayload (content : List Nat) :
    Except CellError (List Nat × List Nat) :=
  if content.length < AUTH_CHALLENGE_SIZE + 2 then
    .error (.authChallengeShort (AUTH_CHALLENGE_SIZE + 2) content.length)
  else
    let challenge := content.take AUTH_CHALLENGE_SIZE
    let rest := content.drop AUTH_CHALLENGE_SIZE
    let methodCount := fromBytesBE (rest.take 2)
    let rest2 := rest.drop 2
    if rest2.length < methodCount * 2 then
      .error (.authChallengeMethodsShort methodCount rest2.length)
    else
      andThen (popShorts methodCount rest2) fun p => .ok (challenge, p.1)

/-- Modelled from the spec: variant dispatch after the frame layer has read
the payload (section 4.2). AUTHORIZE is registered but its decoder is absent,
so it fails with the unsupported-operation condition naming the type without
interpreting the payload. -/
def unpackPayloadDispatch (command circId : Nat) (payload : List Nat) :
    Except CellError Cell :=
  if command = 0 then .ok (.padding circId payload)
  else if command = 7 then
    andThen (versionsUnpackPayload payload) fun vs => .ok (.versions circId vs)
  else if command = 8 then
    andThen (netinfoUnpackPayload payload) fun t =>
      .ok (.netinfo circId t.1 t.2.1 t.2.2)
  else if command = 128 then .ok (.vpadding circId payload)
  else if command = 129 then
    andThen (certsUnpackPayload payload) fun cs => .ok (.certs circId cs)
  else if command = 130 then
    andThen (authChallengeUnpackPayload payload) fun p =>
      .ok (.authChallenge circId p.1 p.2)
  else if command = 132 then .error (.unsupported "AUTHORIZE")
  else .error .unknownType

/-- Modelled from the spec: frame-layer decode (section 4.2). Reads the
circuit id at the width implied by the link protocol version, the command
byte, looks the command up in the registry, reads the payload per the
fixed/variable flag (failing with expected versus actual counts when the
buffer holds fewer bytes than declared), dispatches to the variant decoder,
and returns the decoded cell with the unconsumed remainder. -/
def Cell.unpack (content : List Nat) (linkProtocol : Nat) :
    Except CellError (Cell × List Nat) :=
  andThen (popNum (circIdLen linkProtocol) content) fun p1 =>
  andThen (popNum 1 p1.2) fun p2 =>
  andThen (Cell.by_value (.int (Int.ofNat p2.1))) fun desc =>
  andThen (if desc.IS_FIXED_SIZE then .ok (FIXED_PAYLOAD_LEN, p2.2)
           else popNum 2 p2.2) fun p3 =>
  if p3.2.length < p3.1 then
    .error (.truncatedPayload desc.NAME p3.1 p3.2.length)
  else
    andThen (unpackPayloadDispatch p2.1 p1.1 (p3.2.take p3.1)) fun cell =>
    .ok (cell, p3.2.drop p3.1)

/-- Modelled from the spec: the stream demultiplexer (section 4.5), peeling
one cell at a time off a buffer until it is exhausted; the fuel argument
bounds the number of cells and is in practice the cell count of the buffer. -/
def unpackSeq (linkProtocol : Nat) : Nat → List Nat → Except CellError (List Cell)
  | _, [] => .ok []
  | 0, _ => .error .truncatedField
  | fuel + 1, content =>
    andThen (Cell.unpack content linkProtocol) fun p =>
    andThen (unpackSeq linkProtocol fuel p.2) fun cs => .ok (p.1 :: cs)

/-! ## Round-trip lemmas for the payload codecs -/

theorem toBytesBE_one (n : Nat) : toBytesBE 1 n = [n % 256] := rfl

theorem toBytesBE_two (n : Nat) : toBytesBE 2 n = [n / 256 % 256, n % 256] := rfl

theorem length_flatMap_two (ms : List Nat) :
    (ms.flatMap (toBytesBE 2)).length = 2 * ms.length := by
  induction ms with
  | nil => rfl
  | cons m ms ih =>
    simp only [List.flatMap_cons, List.length_append, ih, length_toBytesBE,
      List.length_cons]
    ring

theorem versionsUnpackPayload_pack (vs : List Nat) (h : ∀ v ∈ vs, v < 65536) :
    versionsUnpackPayload (vs.flatMap (toBytesBE 2)) = .ok vs := by
  induction vs with
  | nil => rfl
  | cons v vs ih =>
    have hv : v < 65536 := h v (by simp)
    have hdiv : v / 256 < 256 := by omega
    have hval : v / 256 % 256 * 256 + v % 256 = v := by
      have := Nat.div_add_mod v 256
      omega
    rw [List.flatMap_cons, toBytesBE_two]
    show andThen (versionsUnpackPayload (vs.flatMap (toBytesBE 2)))
        (fun ws => .ok ((v / 256 % 256 * 256 + v % 256) :: ws)) =
      .ok (v :: vs)
    rw [ih (fun x hx => h x (by simp [hx]))]
    simp [hval]

theorem popShorts_pack (ms : List Nat) (rest : List Nat)
    (h : ∀ m ∈ ms, m < 65536) :
    popShorts ms.length (ms.flatMap (toBytesBE 2) ++ rest) = .ok (ms, rest) := by
  induction ms generalizing rest with
  | nil => rfl
  | cons m ms ih =>
    have hm : m < 65536 := h m (by simp)
    simp only [List.flatMap_cons, List.append_assoc, List.length_cons, popShorts]
    rw [popNum_append 2 m _ (by norm_num [hm])]
    rw [andThen_ok, ih rest (fun x hx => h x (by simp [hx]))]
    rfl

theorem popAddresses_pack (senders : List Address) (rest : List Nat)
    (h : ∀ a ∈ senders, a.wf) :
    popAddresses senders.length (senders.flatMap Address.pack ++ rest) =
      .ok (senders, rest) := by
  induction senders generalizing rest with
  | nil => rfl
  | cons a senders ih =>
    simp only [List.flatMap_cons, List.append_assoc, List.length_cons,
      popAddresses]
    rw [address_pop_pack a _ (h a (by simp))]
    rw [andThen_ok, ih rest (fun x hx => h x (by simp [hx]))]
    rfl

theorem certsLoop_append (count m : Nat) (cs : List Certificate)
    (rest : List Nat) (h : ∀ c ∈ cs, c.wf) :
    certsLoop count (cs.length + m) (cs.flatMap Certificate.pack ++ rest) =
      andThen (certsLoop count m rest) fun ds => .ok (cs ++ ds) := by
  induction cs generalizing rest with
  | nil =>
    simp only [List.flatMap_nil, List.nil_append, List.length_nil, Nat.zero_add]
    cases hres : certsLoop count m rest with
    | error e => simp [hres]
    | ok ds => simp [hres]
  | cons c cs ih =>
    have hne : ¬(c.pack ++ (cs.flatMap Certificate.pack ++ rest)).isEmpty = true := by
      simp [Certificate.pack]
    simp only [List.flatMap_cons, List.append_assoc, List.length_cons]
    have hfuel : cs.length + 1 + m = (cs.length + m) + 1 := by ring
    rw [hfuel]
    simp only [certsLoop, hne, if_neg, Bool.false_eq_true, not_false_eq_true]
    rw [certificate_pop_pack c _ (h c (by simp))]
    rw [andThen_ok, ih rest (fun x hx => h x (by simp [hx]))]
    cases hres : certsLoop count m rest with
    | error e => simp [hres]
    | ok ds => simp [hres]

theorem certsLoop_pack (count : Nat) (cs : List Certificate) (rest : List Nat)
    (h : ∀ c ∈ cs, c.wf) :
    certsLoop count cs.length (cs.flatMap Certificate.pack ++ rest) = .ok cs := by
  have := certsLoop_append count 0 cs rest h
  rw [Nat.add_zero] at this
  rw [this]
  simp [certsLoop]

theorem netinfoUnpackPayload_pack (ts : Nat) (recv : Address)
    (senders : List Address) (padding : List Nat)
    (hts : ts < 4294967296) (hrecv : recv.wf) (hcount : senders.length < 256)
    (hsenders : ∀ a ∈ senders, a.wf) :
    netinfoUnpackPayload (toBytesBE 4 ts ++ recv.pack ++
        [senders.length % 256] ++ senders.flatMap Address.pack ++ padding) =
      .ok (ts, recv, senders) := by
  have hcnt : senders.length % 256 = senders.length := Nat.mod_eq_of_lt hcount
  rw [netinfoUnpackPayload]
  rw [List.append_assoc, List.append_assoc, List.append_assoc]
  rw [popNum_append 4 ts _ (by norm_num [hts])]
  rw [andThen_ok]
  rw [address_pop_pack recv _ hrecv]
  rw [andThen_ok]
  have hone : [senders.length % 256] = toBytesBE 1 (senders.length) := by
    rw [toBytesBE_one]
  rw [hone, popNum_append 1 senders.length _ (by norm_num [hcount])]
  rw [andThen_ok]
  rw [popAddresses_pack senders padding hsenders]
  rfl

theorem authChallengeUnpackPayload_pack (ch : List Nat) (ms : List Nat)
    (hch : ch.length = 32) (hm : ∀ m ∈ ms, m < 65536)
    (hlen : 34 + 2 * ms.length < 65536) :
    authChallengeUnpackPayload
        (ch ++ toBytesBE 2 ms.length ++ ms.flatMap (toBytesBE 2)) =
      .ok (ch, ms) := by
  have hflat : (ms.flatMap (toBytesBE 2)).length = 2 * ms.length :=
    length_flatMap_two ms
  have htotal : (ch ++ toBytesBE 2 ms.length ++ ms.flatMap (toBytesBE 2)).length =
      34 + 2 * ms.length := by
    simp [hch, length_toBytesBE, hflat]
    ring
  rw [authChallengeUnpackPayload]
  rw [if_neg (by rw [htotal]; simp [AUTH_CHALLENGE_SIZE])]
  have htake : (ch ++ toBytesBE 2 ms.length ++ ms.flatMap (toBytesBE 2)).take
      AUTH_CHALLENGE_SIZE = ch := by
    rw [List.append_assoc]
    exact take_len_append _ _ _ (by rw [hch]; rfl)
  have hdrop : (ch ++ toBytesBE 2 ms.length ++ ms.flatMap (toBytesBE 2)).drop
      AUTH_CHALLENGE_SIZE = toBytesBE 2 ms.length ++ ms.flatMap (toBytesBE 2) := by
    rw [List.append_assoc]
    exact drop_len_append _ _ _ (by rw [hch]; rfl)
  rw [htake, hdrop]
  have htake2 : (toBytesBE 2 ms.length ++ ms.flatMap (toBytesBE 2)).take 2 =
      toBytesBE 2 ms.length :=
    take_len_append _ _ _ (length_toBytesBE 2 ms.length).symm
  have hdrop2 : (toBytesBE 2 ms.length ++ ms.flatMap (toBytesBE 2)).drop 2 =
      ms.flatMap (toBytesBE 2) :=
    drop_len_append _ _ _ (length_toBytesBE 2 ms.length).symm
  simp only [htake2, hdrop2]
  rw [fromBytesBE_toBytesBE_of_lt 2 ms.length (by norm_num; omega)]
  rw [if_neg (by rw [hflat]; omega)]
  have hpop := popShorts_pack ms [] hm
  rw [List.append_nil] at hpop
  rw [hpop]
  rfl

theorem popNum_one (b : Nat) (t : List Nat) : popNum 1 (b :: t) = .ok (b, t) := by
  rw [popNum, if_neg (by simp)]
  simp [fromBytesBE]

theorem by_value_padding :
    Cell.by_value (.int (Int.ofNat 0)) = .ok ⟨"PADDING", 0, true⟩ := rfl

theorem by_value_versions :
    Cell.by_value (.int (Int.ofNat 7)) = .ok ⟨"VERSIONS", 7, false⟩ := rfl

theorem by_value_netinfo :
    Cell.by_value (.int (Int.ofNat 8)) = .ok ⟨"NETINFO", 8, true⟩ := rfl

theorem by_value_vpadding :
    Cell.by_value (.int (Int.ofNat 128)) = .ok ⟨"VPADDING", 128, false⟩ := rfl

theorem by_value_certs :
    Cell.by_value (.int (Int.ofNat 129)) = .ok ⟨"CERTS", 129, false⟩ := rfl

theorem by_value_auth_challenge :
    Cell.by_value (.int (Int.ofNat 130)) = .ok ⟨"AUTH_CHALLENGE", 130, false⟩ := rfl

theorem by_value_authorize :
    Cell.by_value (.int (Int.ofNat 132)) = .ok ⟨"AUTHORIZE", 132, false⟩ := rfl

/-- Frame-layer decode of a complete fixed-size cell buffer: the envelope is
consumed and control passes to the variant dispatcher with the exact payload
and the exact unread remainder. -/
theorem unpack_frame_fixed (lv circ cmd : Nat) (name : String)
    (body rest : List Nat)
    (hbv : Cell.by_value (.int (Int.ofNat cmd)) = .ok ⟨name, cmd, true⟩)
    (hlen : body.length = FIXED_PAYLOAD_LEN)
    (hcirc : circ < 256 ^ circIdLen lv) :
    Cell.unpack (toBytesBE (circIdLen lv) circ ++ ([cmd] ++ (body ++ rest))) lv =
      andThen (unpackPayloadDispatch cmd circ body) fun cell =>
        .ok (cell, rest) := by
  rw [Cell.unpack]
  rw [popNum_append _ _ _ hcirc]
  rw [andThen_ok, List.singleton_append, popNum_one]
  rw [andThen_ok, hbv, andThen_ok]
  simp only [if_true]
  rw [andThen_ok]
  rw [if_neg (by simp [hlen])]
  rw [take_len_append body rest _ hlen.symm, drop_len_append body rest _ hlen.symm]

/-- Frame-layer decode of a complete variable-size cell buffer: the envelope
and 2-byte length prefix are consumed and control passes to the variant
dispatcher with the exact payload and the exact unread remainder. -/
theorem unpack_frame_var (lv circ cmd : Nat) (name : String)
    (body rest : List Nat)
    (hbv : Cell.by_value (.int (Int.ofNat cmd)) = .ok ⟨name, cmd, false⟩)
    (hlen : body.length < 65536)
    (hcirc : circ < 256 ^ circIdLen lv) :
    Cell.unpack (toBytesBE (circIdLen lv) circ ++
        ([cmd] ++ (toBytesBE 2 body.length ++ (body ++ rest)))) lv =
      andThen (unpackPayloadDispatch cmd circ body) fun cell =>
        .ok (cell, rest) := by
  rw [Cell.unpack]
  rw [popNum_append _ _ _ hcirc]
  rw [andThen_ok, List.singleton_append, popNum_one]
  rw [andThen_ok, hbv, andThen_ok]
  simp only [Bool.false_eq_true, if_false]
  rw [popNum_append 2 _ _ (by norm_num; exact hlen)]
  rw [andThen_ok]
  rw [if_neg (by simp)]
  rw [take_len_append body rest _ rfl, drop_len_append body rest _ rfl]

theorem dispatch_padding (circId : Nat) (payload : List Nat) :
    unpackPayloadDispatch 0 circId payload = .ok (.padding circId payload) := rfl

theorem dispatch_versions (circId : Nat) (payload : List Nat) :
    unpackPayloadDispatch 7 circId payload =
      andThen (versionsUnpackPayload payload) fun vs =>
        .ok (.versions circId vs) := rfl

theorem dispatch_netinfo (circId : Nat) (payload : List Nat) :
    unpackPayloadDispatch 8 circId payload =
      andThen (netinfoUnpackPayload payload) fun t =>
        .ok (.netinfo circId t.1 t.2.1 t.2.2) := rfl

theorem dispatch_vpadding (circId : Nat) (payload : List Nat) :
    unpackPayloadDispatch 128 circId payload = .ok (.vpadding circId payload) := rfl

theorem dispatch_certs (circId : Nat) (payload : List Nat) :
    unpackPayloadDispatch 129 circId payload =
      andThen (certsUnpackPayload payload) fun cs =>
        .ok (.certs circId cs) := rfl

theorem dispatch_auth_challenge (circId : Nat) (payload : List Nat) :
    unpackPayloadDispatch 130 circId payload =
      andThen (authChallengeUnpackPayload payload) fun p =>
        .ok (.authChallenge circId p.1 p.2) := rfl

theorem dispatch_authorize (circId : Nat) (payload : List Nat) :
    unpackPayloadDispatch 132 circId payload =
      .error (.unsupported "AUTHORIZE") := rfl

/-- Frame-layer round trip, strengthened with an arbitrary unconsumed
remainder: decoding a packed well-formed cell followed by any further bytes
yields exactly the cell and those further bytes. -/
theorem Cell.unpack_pack_append (c : Cell) (lv : Nat) (rest : List Nat)
    (hwf : c.wf) (hcirc : c.circId < 256 ^ circIdLen lv) :
    Cell.unpack (c.pack lv ++ rest) lv = .ok (c, rest) := by
  cases c with
  | padding circ p =>
    simp only [Cell.circId] at hcirc
    obtain ⟨hp, -⟩ := hwf
    have hzp : zeroPad FIXED_PAYLOAD_LEN p = p := by
      rw [zeroPad, hp]
      simp
    have hshape : (Cell.padding circ p).pack lv ++ rest =
        toBytesBE (circIdLen lv) circ ++ ([0] ++ (p ++ rest)) := by
      simp [Cell.pack, Cell.command, Cell.circId, Cell.isFixedSize,
        Cell.payloadBytes, hzp]
    rw [hshape, unpack_frame_fixed lv circ 0 "PADDING" p rest by_value_padding hp hcirc]
    rfl
  | versions circ vs =>
    simp only [Cell.circId] at hcirc
    obtain ⟨hv, hlen2⟩ := hwf
    have hplen : (vs.flatMap (toBytesBE 2)).length = 2 * vs.length :=
      length_flatMap_two vs
    have hshape : (Cell.versions circ vs).pack lv ++ rest =
        toBytesBE (circIdLen lv) circ ++ ([7] ++
          (toBytesBE 2 (vs.flatMap (toBytesBE 2)).length ++
            (vs.flatMap (toBytesBE 2) ++ rest))) := by
      simp [Cell.pack, Cell.command, Cell.circId, Cell.isFixedSize,
        Cell.payloadBytes]
    rw [hshape, unpack_frame_var lv circ 7 "VERSIONS" _ rest by_value_versions
      (by omega) hcirc]
    rw [dispatch_versions, versionsUnpackPayload_pack vs hv]
    rfl
  | netinfo circ ts recv senders =>
    simp only [Cell.circId] at hcirc
    obtain ⟨hts, hrecv, hcount, hsenders, hfit⟩ := hwf
    simp only [Cell.payloadBytes] at hfit
    have hzlen : (zeroPad FIXED_PAYLOAD_LEN (toBytesBE 4 ts ++ recv.pack ++
        [senders.length % 256] ++ senders.flatMap Address.pack)).length =
        FIXED_PAYLOAD_LEN := by
      rw [zeroPad, List.length_append, List.length_replicate]
      omega
    have hshape : (Cell.netinfo circ ts recv senders).pack lv ++ rest =
        toBytesBE (circIdLen lv) circ ++ ([8] ++
          (zeroPad FIXED_PAYLOAD_LEN (toBytesBE 4 ts ++ recv.pack ++
            [senders.length % 256] ++ senders.flatMap Address.pack) ++ rest)) := by
      simp only [Cell.pack, Cell.command, Cell.circId, Cell.isFixedSize,
        Cell.payloadBytes, if_true, List.append_assoc, List.cons_append,
        List.singleton_append]
    rw [hshape, unpack_frame_fixed lv circ 8 "NETINFO" _ rest by_value_netinfo
      hzlen hcirc]
    rw [dispatch_netinfo, zeroPad]
    rw [netinfoUnpackPayload_pack ts recv senders _ hts hrecv hcount hsenders]
    rfl
  | vpadding circ p =>
    simp only [Cell.circId] at hcirc
    obtain ⟨hplen, -⟩ := hwf
    have hshape : (Cell.vpadding circ p).pack lv ++ rest =
        toBytesBE (circIdLen lv) circ ++ ([128] ++
          (toBytesBE 2 p.length ++ (p ++ rest))) := by
      simp [Cell.pack, Cell.command, Cell.circId, Cell.isFixedSize,
        Cell.payloadBytes]
    rw [hshape, unpack_frame_var lv circ 128 "VPADDING" _ rest by_value_vpadding
      hplen hcirc]
    rw [dispatch_vpadding]
    rfl
  | certs circ cs =>
    simp only [Cell.circId] at hcirc
    obtain ⟨hcount, hcs, hplen⟩ := hwf
    simp only [Cell.payloadBytes] at hplen
    have hcnt : cs.length % 256 = cs.length := Nat.mod_eq_of_lt hcount
    have hbody : ([cs.length % 256] ++ cs.flatMap Certificate.pack).length < 65536 := by
      omega
    have hshape : (Cell.certs circ cs).pack lv ++ rest =
        toBytesBE (circIdLen lv) circ ++ ([129] ++
          (toBytesBE 2 ([cs.length % 256] ++ cs.flatMap Certificate.pack).length ++
            (([cs.length % 256] ++ cs.flatMap Certificate.pack) ++ rest))) := by
      simp [Cell.pack, Cell.command, Cell.circId, Cell.isFixedSize,
        Cell.payloadBytes]
    rw [hshape, unpack_frame_var lv circ 129 "CERTS" _ rest by_value_certs
      hbody hcirc]
    rw [dispatch_certs, List.singleton_append]
    rw [certsUnpackPayload, hcnt]
    have hloop := certsLoop_pack cs.length cs [] hcs
    rw [List.append_nil] at hloop
    rw [hloop]
    rfl
  | authChallenge circ ch ms =>
    simp only [Cell.circId] at hcirc
    obtain ⟨hch, -, hm, hms⟩ := hwf
    have hblen : (ch ++ toBytesBE 2 ms.length ++ ms.flatMap (toBytesBE 2)).length =
        34 + 2 * ms.length := by
      rw [List.length_append, List.length_append, hch, length_toBytesBE,
        length_flatMap_two]
    have hshape : (Cell.authChallenge circ ch ms).pack lv ++ rest =
        toBytesBE (circIdLen lv) circ ++ ([130] ++
          (toBytesBE 2 (ch ++ toBytesBE 2 ms.length ++
              ms.flatMap (toBytesBE 2)).length ++
            ((ch ++ toBytesBE 2 ms.length ++ ms.flatMap (toBytesBE 2)) ++ rest))) := by
      simp [Cell.pack, Cell.command, Cell.circId, Cell.isFixedSize,
        Cell.payloadBytes]
    rw [hshape, unpack_frame_var lv circ 130 "AUTH_CHALLENGE" _ rest
      by_value_auth_challenge (by omega) hcirc]
    rw [dispatch_auth_challenge, authChallengeUnpackPayload_pack ch ms hch hm hms]
    rfl

instance (a : Address) : Decidable a.wf := by
  unfold Address.wf
  infer_instance

instance (c : Certificate) : Decidable c.wf := by
  unfold Certificate.wf
  infer_instance

instance (c : Cell) : Decidable c.wf := by
  cases c <;> (unfold Cell.wf; infer_instance)

/-- A well-formed cell byte sequence at a given link protocol version: the
exact encoding of some well-formed cell whose circuit id fits the version's
circuit-id field. -/
def wellFormedBytes (lv : Nat) (bytes : List Nat) : Prop :=
  ∃ c : Cell, c.wf ∧ c.circId < 256 ^ circIdLen lv ∧ c.pack lv = bytes

/-- C1: for every supported cell variant and well-formed field tuple,
unpacking the packed bytes (at the same link protocol version) restores the
fields exactly and consumes the whole buffer; and packing the cell decoded
from any well-formed cell byte sequence reproduces exactly those bytes. -/
theorem c1_cell_roundtrip :
    (∀ (c : Cell) (lv : Nat), c.wf → c.circId < 256 ^ circIdLen lv →
      Cell.unpack (c.pack lv) lv = .ok (c, [])) ∧
    (∀ (bytes : List Nat) (lv : Nat), wellFormedBytes lv bytes →
      ∃ c : Cell, Cell.unpack bytes lv = .ok (c, []) ∧ c.pack lv = bytes) := by
  constructor
  · intro c lv hwf hcirc
    have h := Cell.unpack_pack_append c lv [] hwf hcirc
    rwa [List.append_nil] at h
  · rintro bytes lv ⟨c, hwf, hcirc, hpack⟩
    refine ⟨c, ?_, hpack⟩
    have h := Cell.unpack_pack_append c lv [] hwf hcirc
    rw [List.append_nil, hpack] at h
    exact h

/-- Witness for C1 at the VERSIONS test vector of the repository's unit
tests: `VersionsCell.pack([1, 2, 3])` is `00 00 07 00 06 00 01 00 02 00 03`
and both round-trip directions hold there. -/
theorem c1_cell_roundtrip_witness :
    Cell.unpack ((Cell.versions 0 [1, 2, 3]).pack 2) 2 =
      .ok (Cell.versions 0 [1, 2, 3], []) ∧
    (∃ c : Cell, Cell.unpack [0, 0, 7, 0, 6, 0, 1, 0, 2, 0, 3] 2 = .ok (c, []) ∧
      c.pack 2 = [0, 0, 7, 0, 6, 0, 1, 0, 2, 0, 3]) := by
  constructor
  · exact c1_cell_roundtrip.1 (Cell.versions 0 [1, 2, 3]) 2 (by decide) (by decide)
  · exact c1_cell_roundtrip.2 [0, 0, 7, 0, 6, 0, 1, 0, 2, 0, 3] 2
      ⟨Cell.versions 0 [1, 2, 3], by decide, by decide, by rfl⟩

theorem pack_ne_nil (c : Cell) (lv : Nat) : c.pack lv ≠ [] := by
  intro h
  have := congrArg List.length h
  simp [Cell.pack] at this

theorem unpackSeq_cons (lv fuel : Nat) (content : List Nat) (h : content ≠ []) :
    unpackSeq lv (fuel + 1) content =
      andThen (Cell.unpack content lv) fun p =>
      andThen (unpackSeq lv fuel p.2) fun cs => .ok (p.1 :: cs) := by
  cases content with
  | nil => exact absurd rfl h
  | cons b bs => rfl

/-- C2: for a buffer of concatenated well-formed cells, each unpack returns
the first decoded cell together with the exact unconsumed remainder, and
repeatedly unpacking the successive remainders yields every cell in input
order, ending with an empty remainder when the buffer is exhausted. -/
theorem c2_sequential_unpack (lv : Nat) (cells : List Cell)
    (h : ∀ c ∈ cells, c.wf ∧ c.circId < 256 ^ circIdLen lv) :
    (∀ (c : Cell) (rest : List Nat), c.wf → c.circId < 256 ^ circIdLen lv →
      Cell.unpack (c.pack lv ++ rest) lv = .ok (c, rest)) ∧
    unpackSeq lv cells.length (cells.flatMap (fun c => c.pack lv)) = .ok cells := by
  refine ⟨fun c rest hwf hcirc => Cell.unpack_pack_append c lv rest hwf hcirc, ?_⟩
  induction cells with
  | nil => rfl
  | cons c cells ih =>
    obtain ⟨hwf, hcirc⟩ := h c (by simp)
    rw [List.flatMap_cons, List.length_cons]
    rw [unpackSeq_cons lv cells.length _ (by
      intro hnil
      rcases List.append_eq_nil.mp hnil with ⟨h1, -⟩
      exact pack_ne_nil c lv h1)]
    rw [Cell.unpack_pack_append c lv _ hwf hcirc, andThen_ok]
    rw [ih (fun x hx => h x (by simp [hx]))]
    rfl

/-- Witness for C2: a buffer holding a VERSIONS cell followed by a VPADDING
cell demultiplexes to exactly those two cells in order. -/
theorem c2_sequential_unpack_witness :
    unpackSeq 2 2
        ([Cell.versions 0 [1], Cell.vpadding 0 [8]].flatMap (fun c => c.pack 2)) =
      .ok [Cell.versions 0 [1], Cell.vpadding 0 [8]] :=
  (c2_sequential_unpack 2 [Cell.versions 0 [1], Cell.vpadding 0 [8]]
    (by decide)).2

/-- C6: a complete, well-framed buffer whose command byte is AUTHORIZE (132)
always fails to decode with the unsupported-operation condition naming
AUTHORIZE, whatever the circuit id and payload content; and no cell value
ever encodes with command 132, so no encode operation exists for it. -/
theorem c6_authorize_unimplemented :
    (∀ (lv circ : Nat) (payload rest : List Nat),
      circ < 256 ^ circIdLen lv → payload.length < 65536 →
      Cell.unpack (toBytesBE (circIdLen lv) circ ++
          ([132] ++ (toBytesBE 2 payload.length ++ (payload ++ rest)))) lv =
        .error (.unsupported "AUTHORIZE")) ∧
    (∀ c : Cell, c.command ≠ 132) := by
  constructor
  · intro lv circ payload rest hcirc hlen
    rw [unpack_frame_var lv circ 132 "AUTHORIZE" payload rest by_value_authorize
      hlen hcirc]
    rw [dispatch_authorize]
    rfl
  · intro c
    cases c <;> simp [Cell.command]

/-- Witness for C6 at the unit tests' vector
`00 00 84 00 06 00 01 00 02 00 03` with link protocol 2. -/
theorem c6_authorize_unimplemented_witness :
    Cell.unpack [0, 0, 132, 0, 6, 0, 1, 0, 2, 0, 3] 2 =
      .error (.unsupported "AUTHORIZE") ∧
    (Cell.padding 0 []).command ≠ 132 := by
  constructor
  · exact c6_authorize_unimplemented.1 2 0 [0, 1, 0, 2, 0, 3] [] (by decide)
      (by decide)
  · exact c6_authorize_unimplemented.2 (Cell.padding 0 [])

/-- C7: `by_name` returns the registered descriptor for every registered
name and `by_value` for every registered command value; any key matching no
registry entry — an unregistered name or value, or a key of the wrong kind
(an integer or `None` for `by_name`, a string or `None` for `by_value`) —
fails with the same unknown-type condition rather than a type error. -/
theorem c7_registry_lookup :
    (∀ d ∈ cellRegistry, Cell.by_name (.str d.NAME) = .ok d ∧
      Cell.by_value (.int (d.VALUE : Int)) = .ok d) ∧
    (∀ k : PyKey, (∀ d ∈ cellRegistry, keyEqName k d.NAME = false) →
      Cell.by_name k = .error .unknownType) ∧
    (∀ k : PyKey, (∀ d ∈ cellRegistry, keyEqValue k d.VALUE = false) →
      Cell.by_value k = .error .unknownType) := by
  refine ⟨?_, ?_, ?_⟩
  · intro d hd
    fin_cases hd <;> exact ⟨rfl, rfl⟩
  · intro k hk
    rw [Cell.by_name]
    have hnone : cellRegistry.find? (fun d => keyEqName k d.NAME) = none := by
      rw [List.find?_eq_none]
      intro d hd
      rw [hk d hd]
      exact Bool.false_ne_true
    rw [hnone]
  · intro k hk
    rw [Cell.by_value]
    have hnone : cellRegistry.find? (fun d => keyEqValue k d.VALUE) = none := by
      rw [List.find?_eq_none]
      intro d hd
      rw [hk d hd]
      exact Bool.false_ne_true
    rw [hnone]

/-- Witness for C7 at the unit tests' lookups: NETINFO resolves by name and
by value (8) with its fixed-size flag, while `'NOPE'`, `85` and `None` fail
with the unknown-type condition on both accessors. -/
theorem c7_registry_lookup_witness :
    Cell.by_name (.str "NETINFO") = .ok ⟨"NETINFO", 8, true⟩ ∧
    Cell.by_value (.int 8) = .ok ⟨"NETINFO", 8, true⟩ ∧
    Cell.by_name (.str "NOPE") = .error .unknownType ∧
    Cell.by_name (.int 85) = .error .unknownType ∧
    Cell.by_name .pyNone = .error .unknownType ∧
    Cell.by_value (.str "NOPE") = .error .unknownType ∧
    Cell.by_value (.int 85) = .error .unknownType ∧
    Cell.by_value .pyNone = .error .unknownType := by
  refine ⟨?_, ?_, ?_, ?_, ?_, ?_, ?_, ?_⟩
  · exact (c7_registry_lookup.1 ⟨"NETINFO", 8, true⟩ (by decide)).1
  · exact (c7_registry_lookup.1 ⟨"NETINFO", 8, true⟩ (by decide)).2
  · exact c7_registry_lookup.2.1 (.str "NOPE") (by decide)
  · exact c7_registry_lookup.2.1 (.int 85) (by decide)
  · exact c7_registry_lookup.2.1 .pyNone (by decide)
  · exact c7_registry_lookup.2.2 (.str "NOPE") (by decide)
  · exact c7_registry_lookup.2.2 (.int 85) (by decide)
  · exact c7_registry_lookup.2.2 .pyNone (by decide)

theorem certsLoop_cons (count n b : Nat) (bs : List Nat) :
    certsLoop count (n + 1) (b :: bs) =
      andThen (Certificate.pop (b :: bs)) fun p =>
      andThen (certsLoop count n p.2) fun cs => .ok (p.1 :: cs) := rfl

theorem certsLoop_nil (count n : Nat) :
    certsLoop count (n + 1) [] = .error (.certCountShort count (count - (n + 1))) := rfl

theorem Certificate.pop_short (t s : Nat) (v : List Nat) (hs : s < 65536)
    (hv : v.length < s) :
    Certificate.pop (t :: (toBytesBE 2 s ++ v)) =
      .error (.certTruncated s v.length) := by
  rw [toBytesBE_two]
  simp only [List.cons_append, List.nil_append]
  have hsz : s / 256 % 256 * 256 + s % 256 = s := by
    have h1 := Nat.div_add_mod s 256
    have h2 : s / 256 < 256 := by omega
    omega
  rw [Certificate.pop]
  simp only [hsz]
  rw [if_pos hv]

/-- C4: inside a CERTS payload, a certificate whose declared 2-byte length
exceeds the bytes remaining fails with the expected and remaining byte
counts; and a payload holding fewer certificates than its declared 1-byte
count fails with the expected and actual certificate counts. -/
theorem c4_certs_error_reporting :
    (∀ (count : Nat) (cs : List Certificate) (t s : Nat) (v : List Nat),
      (∀ c ∈ cs, c.wf) → cs.length < count → s < 65536 → v.length < s →
      certsUnpackPayload (count :: (cs.flatMap Certificate.pack ++
          (t :: (toBytesBE 2 s ++ v)))) =
        .error (.certTruncated s v.length)) ∧
    (∀ (count : Nat) (cs : List Certificate),
      (∀ c ∈ cs, c.wf) → cs.length < count →
      certsUnpackPayload (count :: cs.flatMap Certificate.pack) =
        .error (.certCountShort count cs.length)) := by
  constructor
  · intro count cs t s v hcs hlt hs hv
    obtain ⟨m, hm⟩ := Nat.exists_eq_add_of_lt hlt
    rw [certsUnpackPayload]
    rw [show count = cs.length + (m + 1) from by omega]
    rw [certsLoop_append _ (m + 1) cs _ hcs]
    rw [certsLoop_cons, Certificate.pop_short t s v hs hv]
    rfl
  · intro count cs hcs hlt
    obtain ⟨m, hm⟩ := Nat.exists_eq_add_of_lt hlt
    rw [certsUnpackPayload]
    rw [show count = cs.length + (m + 1) from by omega]
    rw [← List.append_nil (cs.flatMap Certificate.pack)]
    rw [certsLoop_append _ (m + 1) cs [] hcs]
    rw [certsLoop_nil, Nat.add_sub_cancel]
    rfl

/-- Witness for C4 at the unit tests' vectors: payload `01 01 00 03 08`
(one certificate declaring 3 bytes with 1 remaining) reports expected 3 got
1, and payload `02 01 00 01 08` (declared 2 certificates, containing 1)
reports expected 2 got 1. -/
theorem c4_certs_error_reporting_witness :
    certsUnpackPayload [1, 1, 0, 3, 8] = .error (.certTruncated 3 1) ∧
    certsUnpackPayload [2, 1, 0, 1, 8] = .error (.certCountShort 2 1) := by
  constructor
  · exact c4_certs_error_reporting.1 1 [] 1 3 [8] (by decide) (by decide)
      (by decide) (by decide)
  · exact c4_certs_error_reporting.2 2 [⟨1, [8]⟩] (by decide) (by decide)

/-- C5: a well-formed CERTS cell with extra bytes appended after the last
certificate consumed by the declared count — the outer length prefix kept
consistent with the payload — still decodes to the same certificate list,
silently ignoring the trailing bytes. -/
theorem c5_certs_trailing_bytes (lv circ : Nat) (cs : List Certificate)
    (extra rest : List Nat) (hcirc : circ < 256 ^ circIdLen lv)
    (hcs : ∀ c ∈ cs, c.wf) (hcount : cs.length < 256)
    (hplen : (cs.length :: (cs.flatMap Certificate.pack ++ extra)).length < 65536) :
    Cell.unpack (toBytesBE (circIdLen lv) circ ++
        ([129] ++ (toBytesBE 2
            (cs.length :: (cs.flatMap Certificate.pack ++ extra)).length ++
          ((cs.length :: (cs.flatMap Certificate.pack ++ extra)) ++ rest)))) lv =
      .ok (.certs circ cs, rest) := by
  rw [unpack_frame_var lv circ 129 "CERTS" _ rest by_value_certs hplen hcirc]
  rw [dispatch_certs, certsUnpackPayload]
  rw [show cs.length = cs.length + 0 from rfl]
  rw [certsLoop_append _ 0 cs extra hcs]
  simp [certsLoop]

/-- Witness for C5 at the unit tests' vector
`00 00 81 00 07 01 01 00 01 08 06 04`: the trailing bytes `06 04` are
ignored and the single certificate `(1, 08)` is returned. -/
theorem c5_certs_trailing_bytes_witness :
    Cell.unpack [0, 0, 129, 0, 7, 1, 1, 0, 1, 8, 6, 4] 2 =
      .ok (.certs 0 [⟨1, [8]⟩], []) :=
  c5_certs_trailing_bytes 2 0 [⟨1, [8]⟩] [6, 4] [] (by decide) (by decide)
    (by decide) (by decide)

/-- C8: an AUTH_CHALLENGE payload shorter than the 32+2 byte minimum fails
reporting the expected versus actual total payload length; a buffer whose
2-byte length field declares more payload bytes (38 in the unit tests'
scenario) than are present fails reporting the declared versus available
count; and a declared method count implying more bytes than remain fails
reporting the expected method count versus the bytes available for it. -/
theorem c8_auth_challenge_errors :
    (∀ payload : List Nat, payload.length < AUTH_CHALLENGE_SIZE + 2 →
      authChallengeUnpackPayload payload =
        .error (.authChallengeShort (AUTH_CHALLENGE_SIZE + 2) payload.length)) ∧
    (∀ (lv circ declared : Nat) (content : List Nat),
      circ < 256 ^ circIdLen lv → declared < 65536 → content.length < declared →
      Cell.unpack (toBytesBE (circIdLen lv) circ ++
          ([130] ++ (toBytesBE 2 declared ++ content))) lv =
        .error (.truncatedPayload "AUTH_CHALLENGE" declared content.length)) ∧
    (∀ (ch : List Nat) (count : Nat) (tail : List Nat),
      ch.length = AUTH_CHALLENGE_SIZE → count < 65536 →
      tail.length < count * 2 →
      authChallengeUnpackPayload (ch ++ (toBytesBE 2 count ++ tail)) =
        .error (.authChallengeMethodsShort count tail.length)) := by
  refine ⟨?_, ?_, ?_⟩
  · intro payload hshort
    rw [authChallengeUnpackPayload, if_pos hshort]
  · intro lv circ declared content hcirc hdecl hshort
    rw [Cell.unpack]
    rw [popNum_append _ _ _ hcirc]
    rw [andThen_ok, List.singleton_append, popNum_one]
    rw [andThen_ok, by_value_auth_challenge, andThen_ok]
    simp only [Bool.false_eq_true, if_false]
    rw [popNum_append 2 _ _ (by norm_num; exact hdecl)]
    rw [andThen_ok]
    rw [if_pos hshort]
  · intro ch count tail hch hcount htail
    have hlen : (ch ++ (toBytesBE 2 count ++ tail)).length =
        34 + tail.length := by
      rw [List.length_append, List.length_append, hch, length_toBytesBE]
      rw [AUTH_CHALLENGE_SIZE]
      omega
    rw [authChallengeUnpackPayload]
    rw [if_neg (by rw [hlen]; simp [AUTH_CHALLENGE_SIZE])]
    have htake : (ch ++ (toBytesBE 2 count ++ tail)).take AUTH_CHALLENGE_SIZE =
        ch := take_len_append _ _ _ hch.symm
    have hdrop : (ch ++ (toBytesBE 2 count ++ tail)).drop AUTH_CHALLENGE_SIZE =
        toBytesBE 2 count ++ tail := drop_len_append _ _ _ hch.symm
    simp only [htake, hdrop]
    have htake2 : (toBytesBE 2 count ++ tail).take 2 = toBytesBE 2 count :=
      take_len_append _ _ _ (length_toBytesBE 2 count).symm
    have hdrop2 : (toBytesBE 2 count ++ tail).drop 2 = tail :=
      drop_len_append _ _ _ (length_toBytesBE 2 count).symm
    simp only [htake2, hdrop2]
    rw [fromBytesBE_toBytesBE_of_lt 2 count (by norm_num; exact hcount)]
    rw [if_pos htail]

/-- Witness for C8 at the unit tests' vectors: a 3-byte payload reports
expected 34; the truncated cell `00 00 82 00 26` followed by 16 payload
bytes reports expected 38 got 16; and a payload declaring 3 methods with
only 4 bytes for them reports expected 3 methods got 4 bytes. -/
theorem c8_auth_challenge_errors_witness :
    authChallengeUnpackPayload [1, 2, 3] = .error (.authChallengeShort 34 3) ∧
    Cell.unpack [0, 0, 130, 0, 38, 7, 7, 7, 7, 7, 7, 7, 7, 7, 7, 0, 2, 0, 1, 0, 3] 2 =
      .error (.truncatedPayload "AUTH_CHALLENGE" 38 16) ∧
    authChallengeUnpackPayload (List.replicate 32 0 ++ [0, 3, 0, 1, 0, 3]) =
      .error (.authChallengeMethodsShort 3 4) := by
  refine ⟨?_, ?_, ?_⟩
  · exact c8_auth_challenge_errors.1 [1, 2, 3] (by decide)
  · exact c8_auth_challenge_errors.2.1 2 0 38
      [7, 7, 7, 7, 7, 7, 7, 7, 7, 7, 0, 2, 0, 1, 0, 3] (by decide) (by decide)
      (by decide)
  · exact c8_auth_challenge_errors.2.2 (List.replicate 32 0) 3 [0, 1, 0, 3]
      (by decide) (by decide) (by decide)

theorem popNum_short (w : Nat) (l : List Nat) (h : l.length < w) :
    popNum w l = .error .truncatedField := by
  rw [popNum, if_pos h]

/-- Truncating a fixed-size cell buffer anywhere before its declared end
(envelope plus `FIXED_PAYLOAD_LEN` payload) makes decode fail with a
Truncated-* condition. -/
theorem unpack_take_fixed (lv circ cmd : Nat) (name : String) (body : List Nat)
    (k : Nat)
    (hbv : Cell.by_value (.int (Int.ofNat cmd)) = .ok ⟨name, cmd, true⟩)
    (hlen : body.length = FIXED_PAYLOAD_LEN)
    (hcirc : circ < 256 ^ circIdLen lv)
    (hk : k < circIdLen lv + 1 + FIXED_PAYLOAD_LEN) :
    ∃ e : CellError,
      Cell.unpack ((toBytesBE (circIdLen lv) circ ++ ([cmd] ++ body)).take k) lv =
        .error e ∧ e.isTruncation = true := by
  have hA : (toBytesBE (circIdLen lv) circ).length = circIdLen lv :=
    length_toBytesBE _ _
  rcases Nat.lt_trichotomy k (circIdLen lv) with hkw | hkw | hkw
  · refine ⟨.truncatedField, ?_, rfl⟩
    have htk : (toBytesBE (circIdLen lv) circ ++ ([cmd] ++ body)).take k =
        (toBytesBE (circIdLen lv) circ).take k := by
      rw [List.take_append_eq_append_take,
        show k - (toBytesBE (circIdLen lv) circ).length = 0 from by omega]
      simp
    rw [htk, Cell.unpack, popNum_short _ _ (by rw [List.length_take]; omega)]
    rfl
  · subst hkw
    refine ⟨.truncatedField, ?_, rfl⟩
    rw [take_len_append _ _ _ hA.symm, Cell.unpack]
    have hpop : popNum (circIdLen lv) (toBytesBE (circIdLen lv) circ) =
        .ok (circ, []) := by
      have h := popNum_append (circIdLen lv) circ [] hcirc
      rwa [List.append_nil] at h
    rw [hpop, andThen_ok, popNum_short 1 [] (by simp)]
    rfl
  · obtain ⟨m, hm⟩ : ∃ m, k - circIdLen lv = m + 1 :=
      ⟨k - circIdLen lv - 1, by omega⟩
    have hmF : m < FIXED_PAYLOAD_LEN := by omega
    refine ⟨.truncatedPayload name FIXED_PAYLOAD_LEN m, ?_, rfl⟩
    have htk : (toBytesBE (circIdLen lv) circ ++ ([cmd] ++ body)).take k =
        toBytesBE (circIdLen lv) circ ++ (cmd :: body.take m) := by
      rw [List.take_append_eq_append_take,
        List.take_of_length_le (by omega), hA, List.singleton_append, hm,
        List.take_succ_cons]
    have hlenj : (body.take m).length = m := by
      rw [List.length_take]
      omega
    rw [htk, Cell.unpack, popNum_append _ _ _ hcirc, andThen_ok, popNum_one,
      andThen_ok, hbv, andThen_ok]
    simp only [if_true]
    rw [andThen_ok, if_pos (by rw [hlenj]; omega), hlenj]

/-- Truncating a variable-size cell buffer anywhere before its declared end
(envelope, 2-byte length field and declared payload) makes decode fail with
a Truncated-* condition. -/
theorem unpack_take_var (lv circ cmd : Nat) (name : String) (body : List Nat)
    (k : Nat)
    (hbv : Cell.by_value (.int (Int.ofNat cmd)) = .ok ⟨name, cmd, false⟩)
    (hlen : body.length < 65536)
    (hcirc : circ < 256 ^ circIdLen lv)
    (hk : k < circIdLen lv + 3 + body.length) :
    ∃ e : CellError,
      Cell.unpack ((toBytesBE (circIdLen lv) circ ++
          ([cmd] ++ (toBytesBE 2 body.length ++ body))).take k) lv =
        .error e ∧ e.isTruncation = true := by
  have hA : (toBytesBE (circIdLen lv) circ).length = circIdLen lv :=
    length_toBytesBE _ _
  have hT : (toBytesBE 2 body.length).length = 2 := length_toBytesBE _ _
  rcases Nat.lt_trichotomy k (circIdLen lv) with hkw | hkw | hkw
  · refine ⟨.truncatedField, ?_, rfl⟩
    have htk : (toBytesBE (circIdLen lv) circ ++
        ([cmd] ++ (toBytesBE 2 body.length ++ body))).take k =
        (toBytesBE (circIdLen lv) circ).take k := by
      rw [List.take_append_eq_append_take,
        show k - (toBytesBE (circIdLen lv) circ).length = 0 from by omega]
      simp
    rw [htk, Cell.unpack, popNum_short _ _ (by rw [List.length_take]; omega)]
    rfl
  · subst hkw
    refine ⟨.truncatedField, ?_, rfl⟩
    rw [take_len_append _ _ _ hA.symm, Cell.unpack]
    have hpop : popNum (circIdLen lv) (toBytesBE (circIdLen lv) circ) =
        .ok (circ, []) := by
      have h := popNum_append (circIdLen lv) circ [] hcirc
      rwa [List.append_nil] at h
    rw [hpop, andThen_ok, popNum_short 1 [] (by simp)]
    rfl
  · obtain ⟨m, hm⟩ : ∃ m, k - circIdLen lv = m + 1 :=
      ⟨k - circIdLen lv - 1, by omega⟩
    by_cases hm2 : m < 2
    · refine ⟨.truncatedField, ?_, rfl⟩
      have htk : (toBytesBE (circIdLen lv) circ ++
          ([cmd] ++ (toBytesBE 2 body.length ++ body))).take k =
          toBytesBE (circIdLen lv) circ ++
            (cmd :: (toBytesBE 2 body.length ++ body).take m) := by
        rw [List.take_append_eq_append_take,
          List.take_of_length_le (by omega), hA, List.singleton_append, hm,
          List.take_succ_cons]
      rw [htk, Cell.unpack, popNum_append _ _ _ hcirc, andThen_ok, popNum_one,
        andThen_ok, hbv, andThen_ok]
      simp only [Bool.false_eq_true, if_false]
      rw [popNum_short 2 _ (by
        rw [List.length_take, List.length_append, hT]
        omega)]
      rfl
    · have hj : m - 2 < body.length := by omega
      refine ⟨.truncatedPayload name body.length (m - 2), ?_, rfl⟩
      have htk : (toBytesBE (circIdLen lv) circ ++
          ([cmd] ++ (toBytesBE 2 body.length ++ body))).take k =
          toBytesBE (circIdLen lv) circ ++
            (cmd :: (toBytesBE 2 body.length ++ body.take (m - 2))) := by
        rw [List.take_append_eq_append_take,
          List.take_of_length_le (by omega), hA, List.singleton_append, hm,
          List.take_succ_cons, List.take_append_eq_append_take,
          List.take_of_length_le (by omega :
            (toBytesBE 2 body.length).length ≤ m), hT]
      have hlenj : (body.take (m - 2)).length = m - 2 := by
        rw [List.length_take]
        omega
      rw [htk, Cell.unpack, popNum_append _ _ _ hcirc, andThen_ok, popNum_one,
        andThen_ok, hbv, andThen_ok]
      simp only [Bool.false_eq_true, if_false]
      rw [popNum_append 2 _ _ (by norm_num; exact hlen), andThen_ok]
      rw [if_pos (by rw [hlenj]; omega), hlenj]

/-- C3: truncating a well-formed cell's byte sequence at any point strictly
before its declared end (header plus declared payload) makes `Cell.unpack`
fail with a Truncated-* condition — it never returns a decoded cell. -/
theorem c3_truncation_rejected (c : Cell) (lv k : Nat) (hwf : c.wf)
    (hcirc : c.circId < 256 ^ circIdLen lv) (hk : k < (c.pack lv).length) :
    ∃ e : CellError, Cell.unpack ((c.pack lv).take k) lv = .error e ∧
      e.isTruncation = true := by
  cases c with
  | padding circ p =>
    simp only [Cell.circId] at hcirc
    obtain ⟨hp, -⟩ := hwf
    have hzp : zeroPad FIXED_PAYLOAD_LEN p = p := by
      rw [zeroPad, hp]
      simp
    have hshape : (Cell.padding circ p).pack lv =
        toBytesBE (circIdLen lv) circ ++ ([0] ++ p) := by
      simp [Cell.pack, Cell.command, Cell.circId, Cell.isFixedSize,
        Cell.payloadBytes, hzp]
    rw [hshape] at hk ⊢
    have hklen : k < circIdLen lv + 1 + FIXED_PAYLOAD_LEN := by
      rw [List.length_append, List.length_append, length_toBytesBE,
        List.length_singleton, hp] at hk
      omega
    exact unpack_take_fixed lv circ 0 "PADDING" p k by_value_padding hp hcirc
      hklen
  | versions circ vs =>
    simp only [Cell.circId] at hcirc
    obtain ⟨hv, hlen2⟩ := hwf
    have hplen : (vs.flatMap (toBytesBE 2)).length = 2 * vs.length :=
      length_flatMap_two vs
    have hshape : (Cell.versions circ vs).pack lv =
        toBytesBE (circIdLen lv) circ ++ ([7] ++
          (toBytesBE 2 (vs.flatMap (toBytesBE 2)).length ++
            vs.flatMap (toBytesBE 2))) := by
      simp [Cell.pack, Cell.command, Cell.circId, Cell.isFixedSize,
        Cell.payloadBytes]
    rw [hshape] at hk ⊢
    have hklen : k < circIdLen lv + 3 + (vs.flatMap (toBytesBE 2)).length := by
      rw [List.length_append, List.length_append, List.length_append,
        length_toBytesBE, length_toBytesBE, List.length_singleton] at hk
      omega
    exact unpack_take_var lv circ 7 "VERSIONS" _ k by_value_versions
      (by omega) hcirc hklen
  | netinfo circ ts recv senders =>
    simp only [Cell.circId] at hcirc
    obtain ⟨hts, hrecv, hcount, hsenders, hfit⟩ := hwf
    simp only [Cell.payloadBytes] at hfit
    have hzlen : (zeroPad FIXED_PAYLOAD_LEN (toBytesBE 4 ts ++ recv.pack ++
        [senders.length % 256] ++ senders.flatMap Address.pack)).length =
        FIXED_PAYLOAD_LEN := by
      rw [zeroPad, List.length_append, List.length_replicate]
      omega
    have hshape : (Cell.netinfo circ ts recv senders).pack lv =
        toBytesBE (circIdLen lv) circ ++ ([8] ++
          zeroPad FIXED_PAYLOAD_LEN (toBytesBE 4 ts ++ recv.pack ++
            [senders.length % 256] ++ senders.flatMap Address.pack)) := by
      simp only [Cell.pack, Cell.command, Cell.circId, Cell.isFixedSize,
        Cell.payloadBytes, if_true, List.append_assoc, List.cons_append,
        List.singleton_append]
    rw [hshape] at hk ⊢
    have hklen : k < circIdLen lv + 1 + FIXED_PAYLOAD_LEN := by
      rw [List.length_append, List.length_append, length_toBytesBE,
        List.length_singleton, hzlen] at hk
      omega
    exact unpack_take_fixed lv circ 8 "NETINFO" _ k by_value_netinfo hzlen
      hcirc hklen
  | vpadding circ p =>
    simp only [Cell.circId] at hcirc
    obtain ⟨hplen, -⟩ := hwf
    have hshape : (Cell.vpadding circ p).pack lv =
        toBytesBE (circIdLen lv) circ ++ ([128] ++
          (toBytesBE 2 p.length ++ p)) := by
      simp [Cell.pack, Cell.command, Cell.circId, Cell.isFixedSize,
        Cell.payloadBytes]
    rw [hshape] at hk ⊢
    have hklen : k < circIdLen lv + 3 + p.length := by
      rw [List.length_append, List.length_append, List.length_append,
        length_toBytesBE, length_toBytesBE, List.length_singleton] at hk
      omega
    exact unpack_take_var lv circ 128 "VPADDING" p k by_value_vpadding hplen
      hcirc hklen
  | certs circ cs =>
    simp only [Cell.circId] at hcirc
    obtain ⟨hcount, hcs, hplen⟩ := hwf
    simp only [Cell.payloadBytes] at hplen
    have hshape : (Cell.certs circ cs).pack lv =
        toBytesBE (circIdLen lv) circ ++ ([129] ++
          (toBytesBE 2 ([cs.length % 256] ++ cs.flatMap Certificate.pack).length ++
            ([cs.length % 256] ++ cs.flatMap Certificate.pack))) := by
      simp [Cell.pack, Cell.command, Cell.circId, Cell.isFixedSize,
        Cell.payloadBytes]
    rw [hshape] at hk ⊢
    have hklen : k < circIdLen lv + 3 +
        ([cs.length % 256] ++ cs.flatMap Certificate.pack).length := by
      rw [List.length_append, List.length_append, List.length_append,
        length_toBytesBE, length_toBytesBE, List.length_singleton] at hk
      omega
    exact unpack_take_var lv circ 129 "CERTS" _ k by_value_certs hplen hcirc
      hklen
  | authChallenge circ ch ms =>
    simp only [Cell.circId] at hcirc
    obtain ⟨hch, -, hm, hms⟩ := hwf
    have hblen : (ch ++ toBytesBE 2 ms.length ++ ms.flatMap (toBytesBE 2)).length =
        34 + 2 * ms.length := by
      rw [List.length_append, List.length_append, hch, length_toBytesBE,
        length_flatMap_two]
    have hshape : (Cell.authChallenge circ ch ms).pack lv =
        toBytesBE (circIdLen lv) circ ++ ([130] ++
          (toBytesBE 2 (ch ++ toBytesBE 2 ms.length ++
              ms.flatMap (toBytesBE 2)).length ++
            (ch ++ toBytesBE 2 ms.length ++ ms.flatMap (toBytesBE 2)))) := by
      simp [Cell.pack, Cell.command, Cell.circId, Cell.isFixedSize,
        Cell.payloadBytes]
    rw [hshape] at hk ⊢
    have hklen : k < circIdLen lv + 3 +
        (ch ++ toBytesBE 2 ms.length ++ ms.flatMap (toBytesBE 2)).length := by
      rw [List.length_append, List.length_append, List.length_append,
        length_toBytesBE, length_toBytesBE, List.length_singleton] at hk
      omega
    exact unpack_take_var lv circ 130 "AUTH_CHALLENGE" _ k
      by_value_auth_challenge (by omega) hcirc hklen

/-- Witness for C3: the 11-byte VERSIONS cell `00 00 07 00 06 00 01 00 02 00
03` truncated to its first 7 bytes fails to decode with a Truncated-*
condition. -/
theorem c3_truncation_rejected_witness :
    ∃ e : CellError,
      Cell.unpack (((Cell.versions 0 [1, 2, 3]).pack 2).take 7) 2 = .error e ∧
        e.isTruncation = true :=
  c3_truncation_rejected (Cell.versions 0 [1, 2, 3]) 2 7 (by decide) (by decide)
    (by decide)

/-! ## stem/directory.py: equality, hashing, fallback diffing -/

/-- Python `str()` of an optional string attribute (`None` prints as `None`). -/
def optStr : Option String → String
  | none => "None"
  | some s => s

/-- Python `str()` of an optional integer attribute. -/
def optIntStr : Option Int → String
  | none => "None"
  | some n => toString n

/-- Modelled from the spec: `stem.util._hash_attr` is imported by
`src/stem/directory.py` but its module is not part of the shown material (the
spec treats directory bookkeeping's helpers as external collaborators), so
the attribute hash is modelled as the deterministic fold
`h = h * 1024 + hash(attr)` over the named attributes, seeded with the parent
class's hash where the call site passes `parent = Directory`. The claims
below depend only on `__eq__` comparing the two hash values, never on the
hash function's internals. -/
def hashFold (seed : Nat) (hs : List Nat) : Nat :=
  hs.foldl (fun a h => a * 1024 + h) seed

/-- Stand-in for Python's string hash. -/
def strHashVal (s : String) : Nat :=
  s.foldl (fun h c => h * 256 + c.toNat) 7

def optStrHash : Option String → Nat
  | none => 0
  | some s => strHashVal s + 1

/-- Stand-in for Python's integer hash. -/
def intHashVal (n : Int) : Nat :=
  2 * n.natAbs + (if n < 0 then 1 else 0)

def optIntHash : Option Int → Nat
  | none => 0
  | some n => intHashVal n + 1

def boolHash (b : Bool) : Nat := if b then 1 else 0

def orportV6Hash : Option (String × Int) → Nat
  | none => 0
  | some p => hashFold 3 [strHashVal p.1, intHashVal p.2] + 1

def headerHash (h : List (String × String)) : Nat :=
  hashFold 5 (h.flatMap (fun p => [strHashVal p.1, strHashVal p.2]))

/-- The attributes every `Directory` carries (src/stem/directory.py:104-109);
each may be `None` since the subclasses default them to `None`. -/
structure DirectoryFields where
  address : Option String
  or_port : Option Int
  dir_port : Option Int
  fingerprint : Option String
  nickname : Option String
deriving DecidableEq, Repr

/-- A `Fallback` (src/stem/directory.py:352-357): the inherited `Directory`
fields plus `has_extrainfo`, `orport_v6` and the `header` metadata dict. -/
structure Fallback where
  address : Option String
  or_port : Option Int
  dir_port : Option Int
  fingerprint : Option String
  nickname : Option String
  has_extrainfo : Bool
  orport_v6 : Option (String × Int)
  header : List (String × String)
deriving DecidableEq, Repr

/-- A value of the `Directory` hierarchy: a plain `Directory`, an `Authority`
(extra `v3ident` and `is_bandwidth_authority`, src/stem/directory.py:182-185)
or a `Fallback`. -/
inductive DirValue
  | directory (d : DirectoryFields)
  | authority (d : DirectoryFields) (v3ident : Option String)
      (is_bandwidth_authority : Bool)
  | fallback (f : Fallback)
deriving DecidableEq, Repr

/-- `isinstance(other, Directory)`: every hierarchy value qualifies. -/
def DirValue.isDirectory : DirValue → Bool := fun _ => true

/-- `isinstance(other, Authority)`. -/
def DirValue.isAuthority : DirValue → Bool
  | .authority _ _ _ => true
  | _ => false

/-- `isinstance(other, Fallback)`. -/
def DirValue.isFallback : DirValue → Bool
  | .fallback _ => true
  | _ => false

/-- `Directory.__hash__` (src/stem/directory.py:158-159):
`_hash_attr(self, 'address', 'or_port', 'dir_port', 'fingerprint')`. -/
def directoryHash (address : Option String) (or_port dir_port : Option Int)
    (fingerprint : Option String) : Nat :=
  hashFold 0 [optStrHash address, optIntHash or_port, optIntHash dir_port,
    optStrHash fingerprint]

/-- Dynamic dispatch of `__hash__`: `Directory.__hash__` for plain
directories, `Authority.__hash__` (src/stem/directory.py:301-302, over
nickname, v3ident and is_bandwidth_authority with `parent = Directory`) and
`Fallback.__hash__` (src/stem/directory.py:576-577, over its eight listed
attributes with `parent = Directory`). -/
def DirValue.pyHash : DirValue → Nat
  | .directory d => directoryHash d.address d.or_port d.dir_port d.fingerprint
  | .authority d v b =>
      hashFold (directoryHash d.address d.or_port d.dir_port d.fingerprint)
        [optStrHash d.nickname, optStrHash v, boolHash b]
  | .fallback f =>
      hashFold (directoryHash f.address f.or_port f.dir_port f.fingerprint)
        [optStrHash f.address, optIntHash f.or_port, optIntHash f.dir_port,
          optStrHash f.fingerprint, optStrHash f.nickname,
          boolHash f.has_extrainfo, orportV6Hash f.orport_v6,
          headerHash f.header]

/-- `__eq__` (src/stem/directory.py:161-162, 304-305, 579-580): each class
returns `hash(self) == hash(other)` when the right operand is an instance of
that class, and `False` otherwise — never a type error. -/
def DirValue.pyEq (self other : DirValue) : Bool :=
  match self with
  | .directory _ =>
      if other.isDirectory then self.pyHash == other.pyHash else false
  | .authority _ _ _ =>
      if other.isAuthority then self.pyHash == other.pyHash else false
  | .fallback _ =>
      if other.isFallback then self.pyHash == other.pyHash else false

/-- `__ne__` (src/stem/directory.py:164-165, 307-308, 582-583):
`not self == other`. -/
def DirValue.pyNe (self other : DirValue) : Bool := !(self.pyEq other)

/-- The instance test `__eq__` performs: the right operand belongs to the
left operand's own class (`Directory`, `Authority` or `Fallback`). -/
def DirValue.sameClassAs (self other : DirValue) : Bool :=
  match self with
  | .directory _ => other.isDirectory
  | .authority _ _ _ => other.isAuthority
  | .fallback _ => other.isFallback

/-- C9: across the Directory hierarchy, `__eq__` is True exactly when the
right operand is an instance of the left operand's class and the two values'
own `__hash__` results agree; a different class yields False rather than an
error, and `__ne__` is always the exact negation of `__eq__`. -/
theorem c9_directory_equality (a b : DirValue) :
    (a.pyEq b = (a.sameClassAs b && (a.pyHash == b.pyHash))) ∧
    a.pyNe b = !(a.pyEq b) := by
  refine ⟨?_, rfl⟩
  cases a <;> cases b <;>
    simp [DirValue.pyEq, DirValue.sameClassAs, DirValue.isDirectory,
      DirValue.isAuthority, DirValue.isFallback]

/-- Keys of a fingerprint-keyed dict, modelled as an insertion-ordered
association list. -/
def keysOf (d : List (String × Fallback)) : List String := d.map Prod.fst

/-- Dict indexing `d[fp]`. -/
def lookupFb (d : List (String × Fallback)) (k : String) : Option Fallback :=
  match d.find? (fun p => p.1 == k) with
  | some p => some p.2
  | none => none

/-- `'%s:%s' % directory.orport_v6 if directory.orport_v6 else '[none]'`
(src/stem/directory.py:598). -/
def orportV6Line : Option (String × Int) → String
  | some p => p.1 ++ ":" ++ toString p.2
  | none => "[none]"

/-- Python `str()` of the orport_v6 tuple as compared-and-printed in the
changed-attribute loop (rendering stand-in). -/
def orportV6Repr : Option (String × Int) → String
  | none => "None"
  | some p => "(" ++ p.1 ++ ", " ++ toString p.2 ++ ")"

/-- The block of lines describing one added fallback
(src/stem/directory.py:600-609). -/
def addedLinesFor (directory : Fallback) : List String :=
  ["* Added " ++ optStr directory.fingerprint ++ " as a new fallback directory:",
   "  address: " ++ optStr directory.address,
   "  or_port: " ++ optIntStr directory.or_port,
   "  dir_port: " ++ optIntStr directory.dir_port,
   "  nickname: " ++ optStr directory.nickname,
   "  has_extrainfo: " ++ (if directory.has_extrainfo then "True" else "False"),
   "  orport_v6: " ++ orportV6Line directory.orport_v6,
   ""]

/-- The per-attribute comparison loop over
`('address', 'or_port', 'dir_port', 'fingerprint', 'orport_v6')`
(src/stem/directory.py:622-627). -/
def changedLinesFor (fp : String) (pd nd : Fallback) : List String :=
  (if pd.address == nd.address then [] else
    ["* Changed the address of " ++ fp ++ " from " ++ optStr pd.address ++
      " to " ++ optStr nd.address]) ++
  (if pd.or_port == nd.or_port then [] else
    ["* Changed the or_port of " ++ fp ++ " from " ++ optIntStr pd.or_port ++
      " to " ++ optIntStr nd.or_port]) ++
  (if pd.dir_port == nd.dir_port then [] else
    ["* Changed the dir_port of " ++ fp ++ " from " ++ optIntStr pd.dir_port ++
      " to " ++ optIntStr nd.dir_port]) ++
  (if pd.fingerprint == nd.fingerprint then [] else
    ["* Changed the fingerprint of " ++ fp ++ " from " ++
      optStr pd.fingerprint ++ " to " ++ optStr nd.fingerprint]) ++
  (if pd.orport_v6 == nd.orport_v6 then [] else
    ["* Changed the orport_v6 of " ++ fp ++ " from " ++
      orportV6Repr pd.orport_v6 ++ " to " ++ orportV6Repr nd.orport_v6])

/-- `_fallback_directory_differences` (src/stem/directory.py:586-629): added
fingerprints, removed fingerprints, then attribute changes for fingerprints
present on both sides (skipping added/removed ones), joined with newlines.
Dicts are modelled as insertion-ordered association lists and set-difference
iteration order as key order. -/
def _fallback_directory_differences
    (previous_directories new_directories : List (String × Fallback)) : String :=
  let added_fp := (keysOf new_directories).filter
    (fun fp => !(keysOf previous_directories).contains fp)
  let removed_fp := (keysOf previous_directories).filter
    (fun fp => !(keysOf new_directories).contains fp)
  let addedL := added_fp.flatMap (fun fp =>
    match lookupFb new_directories fp with
    | some directory => addedLinesFor directory
    | none => [])
  let removedL := removed_fp.map
    (fun fp => "* Removed " ++ fp ++ " as a fallback directory")
  let changedL := (keysOf new_directories).flatMap (fun fp =>
    if added_fp.contains fp || removed_fp.contains fp then []
    else
      match lookupFb previous_directories fp, lookupFb new_directories fp with
      | some previous_directory, some new_directory =>
          if DirValue.pyNe (.fallback previous_directory)
              (.fallback new_directory) then
            changedLinesFor fp previous_directory new_directory
          else []
      | _, _ => [])
  String.intercalate "\n" (addedL ++ removedL ++ changedL)

/-- C10: diffing a set of fallback directories against itself reports no
added, removed or changed entries — the result is the empty string. -/
theorem c10_self_diff_empty (d : List (String × Fallback)) :
    _fallback_directory_differences d d = "" := by
  have hfilter : (keysOf d).filter (fun fp => !(keysOf d).contains fp) = [] := by
    rw [List.filter_eq_nil_iff]
    intro a ha
    simp [ha]
  have hchanged : (keysOf d).flatMap (fun fp =>
      if ([] : List String).contains fp || ([] : List String).contains fp then
        ([] : List String)
      else
        match lookupFb d fp, lookupFb d fp with
        | some previous_directory, some new_directory =>
            if DirValue.pyNe (.fallback previous_directory)
                (.fallback new_directory) then
              changedLinesFor fp previous_directory new_directory
            else []
        | _, _ => []) = [] := by
    rw [List.flatMap_eq_nil_iff]
    intro fp _
    cases hlook : lookupFb d fp with
    | none => simp
    | some pd =>
        simp [DirValue.pyNe, DirValue.pyEq, DirValue.isFallback]
  rw [_fallback_directory_differences]
  simp only [hfilter, hchanged]
  rfl
